import Mathlib

/-!
Verification of the aggregation pipeline of `election_dashboard.py`.

The script loads one pandas DataFrame `df` and derives KPI scalars, a marker
and heatmap layer, a top-5 ranking, a wide-to-long melt, a per-LGA group mean
and a historical series.  We embed the pandas operations shallowly:

* a DataFrame cell is `Option ℚ` (numeric, `none` = NaN) or `Option String`;
* a table is a `List Row` in row order;
* `Series.sum` skips missing values (pandas `skipna=True`);
* numpy scalar division by zero does not raise: it yields `nan`/`inf`
  (modelled by `PyFloat`);
* `sort_values(ascending=False)` follows pandas `nargsort` with the default
  `na_position="last"`: the rows with a present key are **reversed**, argsorted
  ascending, and the result is reversed again (the double reversal makes the
  descending sort stable: exact ties keep their original order); rows with a
  missing key are appended in original order.  numpy's default `quicksort`
  falls back to a stable insertion sort on small inputs, so the ascending
  pass is modelled as the stable `List.insertionSort`.
-/

namespace ElectionDashboard

/-- One row of the loaded table.  Field names follow the CSV columns of the
source (`PU-Code`, `PU-Name`, `LGA`, `Latitude`, `Longitude`, vote tallies,
`HDBSCAN_Cluster`, `Accredited_Ratio` (here `accreditedShare`),
`Global_Composite_Score`, per-party z-scores, `color`). -/
structure Row where
  puCode : Option String
  puName : Option String
  lga : Option String
  latitude : Option ℚ
  longitude : Option ℚ
  apc : Option ℚ
  pdp : Option ℚ
  lp : Option ℚ
  nnpp : Option ℚ
  totalVotes : Option ℚ
  registeredVoters : Option ℚ
  accreditedVoters : Option ℚ
  hdbscanCluster : Option ℚ
  accreditedShare : Option ℚ
  globalCompositeScore : Option ℚ
  apcZ : Option ℚ
  pdpZ : Option ℚ
  lpZ : Option ℚ
  nnppZ : Option ℚ
  color : Option String
deriving DecidableEq, Repr

abbrev Table := List Row

/-- A row with every cell present, used to build concrete test tables. -/
def mkRow (code name lgaName : String) (q : ℚ) : Row :=
  ⟨some code, some name, some lgaName, some q, some q, some q, some q, some q,
   some q, some q, some q, some q, some q, some q, some q, some q, some q,
   some q, some q, some "blue"⟩

/-- `df[c].sum()`: pandas sums a column skipping missing values
(`skipna=True`); an all-missing or empty column sums to `0`. -/
def colSum (t : Table) (f : Row → Option ℚ) : ℚ :=
  (t.filterMap f).sum

/-- A numpy floating-point scalar: a finite value (modelled as a rational),
an infinity, or NaN. -/
inductive PyFloat where
  | finite : ℚ → PyFloat
  | posInf : PyFloat
  | negInf : PyFloat
  | nan : PyFloat
deriving DecidableEq, Repr

/-- numpy true division of numeric scalars.  Division by zero does **not**
raise: `0/0` is NaN and `±a/0` is `±inf` (numpy emits a `RuntimeWarning`
and continues).  The script divides two pandas column sums, which are numpy
scalars, so this is the semantics of line 48 of the source. -/
def npDiv (a b : ℚ) : PyFloat :=
  if b = 0 then
    if a = 0 then .nan else if 0 < a then .posInf else .negInf
  else .finite (a / b)

/-- Multiplication of a numpy float by the positive literal `100`. -/
def pyMul100 : PyFloat → PyFloat
  | .finite q => .finite (q * 100)
  | .posInf => .posInf
  | .negInf => .negInf
  | .nan => .nan

/-- `total_polling_units = df["PU-Code"].nunique()`: pandas `nunique` counts
the distinct non-missing values of the column. -/
def total_polling_units (t : Table) : Nat :=
  (t.filterMap Row.puCode).dedup.length

/-- `total_votes = int(df["Total_Votes"].sum())` (the `int` cast truncates
toward zero). -/
def total_votes (t : Table) : ℤ :=
  (colSum t Row.totalVotes).floor

/-- `voter_turnout = (total_accredited / total_registered) * 100`
(line 48 of the source). -/
def voter_turnout (t : Table) : PyFloat :=
  pyMul100 (npDiv (colSum t Row.accreditedVoters) (colSum t Row.registeredVoters))

/-- The set of distinct non-missing unit codes of a table. -/
def unitCodes (t : Table) : Finset String :=
  (t.filterMap Row.puCode).toFinset

theorem total_polling_units_eq_card (t : Table) :
    total_polling_units t = (unitCodes t).card := by
  simp [total_polling_units, unitCodes, List.card_toFinset]

/-- C8: the KPI `total_polling_units` equals the number of distinct unit
codes and is invariant under any permutation of the rows of the table. -/
theorem C8_total_polling_units_distinct (t t' : Table) (hp : t.Perm t') :
    total_polling_units t = (unitCodes t).card ∧
      total_polling_units t = total_polling_units t' := by
  refine ⟨total_polling_units_eq_card t, ?_⟩
  rw [total_polling_units_eq_card, total_polling_units_eq_card]
  unfold unitCodes
  rw [List.toFinset_eq_of_perm _ _ (hp.filterMap Row.puCode)]

/-- Witness for C8 on a concrete two-row table and its swap. -/
theorem C8_total_polling_units_distinct_witness :
    total_polling_units [mkRow "a" "A" "L" 1, mkRow "b" "B" "L" 2] =
        (unitCodes [mkRow "a" "A" "L" 1, mkRow "b" "B" "L" 2]).card ∧
      total_polling_units [mkRow "a" "A" "L" 1, mkRow "b" "B" "L" 2] =
        total_polling_units [mkRow "b" "B" "L" 2, mkRow "a" "A" "L" 1] :=
  C8_total_polling_units_distinct _ _ (by decide)

/-- C2: when the registered-voters column sums to zero the turnout
computation is total: it returns the numpy sentinel NaN (when the accredited
sum is also zero) or an infinity, and never raises a division-by-zero
fault (numpy scalar division only warns). -/
theorem C2_turnout_sentinel (t : Table)
    (h : colSum t Row.registeredVoters = 0) :
    voter_turnout t = .nan ∨ voter_turnout t = .posInf ∨
      voter_turnout t = .negInf := by
  unfold voter_turnout npDiv
  rw [h]
  by_cases ha : colSum t Row.accreditedVoters = 0
  · simp [ha, pyMul100]
  · by_cases hpos : 0 < colSum t Row.accreditedVoters
    · simp [ha, hpos, pyMul100]
    · simp [ha, hpos, pyMul100]

/-- A concrete row whose registered- and accredited-voter cells are zero. -/
def zeroRegRow : Row :=
  ⟨some "a", some "A", some "L", some 1, some 1, some 1, some 1, some 1,
   some 1, some 1, some 0, some 0, some 1, some 1, some 1, some 1, some 1,
   some 1, some 1, some "blue"⟩

/-- Witness for C2 on a concrete one-row table with zero registered voters. -/
theorem C2_turnout_sentinel_witness :
    voter_turnout [zeroRegRow] = .nan ∨ voter_turnout [zeroRegRow] = .posInf ∨
      voter_turnout [zeroRegRow] = .negInf :=
  C2_turnout_sentinel _ (by simp [colSum, zeroRegRow])

section Sorting

variable {α : Type*}

/-- Sort key of a row: the cell value; the default is only reached on rows
whose key is missing, which are never compared. -/
def keyQ (f : α → Option ℚ) (x : α) : ℚ := (f x).getD 0

/-- The ascending comparison pandas' argsort uses on non-missing keys. -/
def leKey (f : α → Option ℚ) (a b : α) : Prop := keyQ f a ≤ keyQ f b

instance (f : α → Option ℚ) : DecidableRel (leKey f) := fun a b =>
  inferInstanceAs (Decidable (keyQ f a ≤ keyQ f b))

instance (f : α → Option ℚ) : IsTotal α (leKey f) := ⟨fun _ _ => le_total _ _⟩

instance (f : α → Option ℚ) : IsTrans α (leKey f) := ⟨fun _ _ _ => le_trans⟩

/-- `sort_values(by=f, ascending=False)` with the default
`na_position="last"`, following pandas `nargsort`: the rows with a present
key are reversed, argsorted ascending, and the resulting order is reversed
again — the double reversal makes the descending sort stable, so exact ties
keep their original relative order — and the rows with a missing key are
appended in their original order.  numpy's argsort falls back to a stable
insertion sort on small inputs, so the ascending pass is the stable
`List.insertionSort`. -/
def sortValuesDesc (f : α → Option ℚ) (l : List α) : List α :=
  ((l.filter fun x => (f x).isSome).reverse.insertionSort (leKey f)).reverse ++
    (l.filter fun x => !(f x).isSome)

/-- `a` ranks at least as high as `b` in the descending order: either `b`'s
key is missing, or both keys are present and `a`'s is at least `b`'s. -/
def scoreGe (f : α → Option ℚ) (a b : α) : Prop :=
  f b = none ∨ ∃ qa qb, f a = some qa ∧ f b = some qb ∧ qb ≤ qa

theorem sortValuesDesc_perm (f : α → Option ℚ) (l : List α) :
    (sortValuesDesc f l).Perm l := by
  unfold sortValuesDesc
  exact ((((List.reverse_perm _).trans
    (List.perm_insertionSort _ _)).trans
    (List.reverse_perm _)).append_right _).trans
    (List.filter_append_perm _ l)

theorem length_sortValuesDesc (f : α → Option ℚ) (l : List α) :
    (sortValuesDesc f l).length = l.length :=
  (sortValuesDesc_perm f l).length_eq

theorem mem_sorted_present {f : α → Option ℚ} {l : List α} {x : α}
    (hx : x ∈ ((l.filter fun a => (f a).isSome).reverse.insertionSort
      (leKey f)).reverse) :
    (f x).isSome := by
  rw [List.mem_reverse, List.mem_insertionSort, List.mem_reverse] at hx
  exact (List.mem_filter.mp hx).2

theorem mem_absent {f : α → Option ℚ} {l : List α} {x : α}
    (hx : x ∈ l.filter fun a => !(f a).isSome) : f x = none := by
  have := (List.mem_filter.mp hx).2
  simpa [Option.not_isSome_iff_eq_none] using this

theorem sortValuesDesc_pairwise (f : α → Option ℚ) (l : List α) :
    (sortValuesDesc f l).Pairwise (scoreGe f) := by
  unfold sortValuesDesc
  rw [List.pairwise_append]
  refine ⟨?_, ?_, ?_⟩
  · have hs : ((l.filter fun a => (f a).isSome).reverse.insertionSort
        (leKey f)).Pairwise (leKey f) := List.sorted_insertionSort _ _
    have hrev : (((l.filter fun a => (f a).isSome).reverse.insertionSort
        (leKey f)).reverse).Pairwise (fun a b => leKey f b a) :=
      List.pairwise_reverse.mpr hs
    refine hrev.imp_of_mem ?_
    intro a b ha hb hle
    have hfa := mem_sorted_present ha
    have hfb := mem_sorted_present hb
    obtain ⟨qa, hqa⟩ := Option.isSome_iff_exists.mp hfa
    obtain ⟨qb, hqb⟩ := Option.isSome_iff_exists.mp hfb
    refine Or.inr ⟨qa, qb, hqa, hqb, ?_⟩
    have : keyQ f b ≤ keyQ f a := hle
    simpa [keyQ, hqa, hqb] using this
  · refine List.pairwise_of_forall_mem_list ?_
    intro a b _ hb
    exact Or.inl (mem_absent hb)
  · intro a _ b hb
    exact Or.inl (mem_absent hb)

/-- `top_n(table, "Global_Composite_Score", k)`:
`df.sort_values(by="Global_Composite_Score", ascending=False).head(k)`. -/
def top_n (t : Table) (k : ℕ) : Table :=
  (sortValuesDesc Row.globalCompositeScore t).take k

/-- Line 106 of the source, with the script's literal `5`. -/
def top_5_outliers (t : Table) : Table := top_n t 5

/-- Row with every cell present and composite score 1. -/
def rowA : Row := mkRow "a" "A" "L1" 1

/-- Row with every cell present and composite score 2. -/
def rowB : Row := mkRow "b" "B" "L1" 2

/-- Row whose composite score is missing (every other cell present). -/
def noScoreRow : Row :=
  ⟨some "c", some "C", some "L2", some 1, some 1, some 1, some 1, some 1,
   some 1, some 1, some 1, some 1, some 1, some 1, none, some 1, some 1,
   some 1, some 1, some "blue"⟩

/-- C1 as stated is false: `head(k)` keeps `min(k, total rows)` rows, not
`min(k, rows with a non-missing score)`.  On a table with one scored and
one unscored row, `top_n` with `k = 2` returns 2 rows, not 1. -/
theorem C1_counterexample :
    (top_n [noScoreRow, rowA] 2).length ≠
      min 2 ((List.filter (fun r => (Row.globalCompositeScore r).isSome)
        [noScoreRow, rowA]).length) := by
  decide

/-- C1 (amended): `top_n` returns exactly `min(k, total rows)` rows; the
sorted table is a permutation of the input; the returned rows are ordered
non-increasingly by score with missing-score rows ranked below all present
scores; and every returned row ranks at least as high as every row not
returned. -/
theorem C1_top_n_rows (t : Table) (k : ℕ) :
    (top_n t k).length = min k t.length ∧
      (sortValuesDesc Row.globalCompositeScore t).Perm t ∧
      (top_n t k).Pairwise (scoreGe Row.globalCompositeScore) ∧
      ∀ x ∈ top_n t k, ∀ y ∈ (sortValuesDesc Row.globalCompositeScore t).drop k,
        scoreGe Row.globalCompositeScore x y := by
  have hperm := sortValuesDesc_perm Row.globalCompositeScore t
  have hpw := sortValuesDesc_pairwise Row.globalCompositeScore t
  refine ⟨?_, hperm, ?_, ?_⟩
  · simp [top_n, length_sortValuesDesc]
  · exact hpw.sublist (List.take_sublist _ _)
  · intro x hx y hy
    rw [← List.take_append_drop k (sortValuesDesc Row.globalCompositeScore t)]
      at hpw
    exact (List.pairwise_append.mp hpw).2.2 x hx y hy

/-- Witness for C1 on a concrete two-row table with `k = 1`. -/
theorem C1_top_n_rows_witness :
    (top_n [rowA, rowB] 1).length = min 1 2 ∧
      scoreGe Row.globalCompositeScore rowB rowA :=
  ⟨(C1_top_n_rows [rowA, rowB] 1).1,
   (C1_top_n_rows [rowA, rowB] 1).2.2.2 rowB (by decide) rowA (by decide)⟩

/-- A stable sort does not reorder elements that the comparison cannot
distinguish: filtering the sorted list by a predicate on which the
comparison is constantly true gives the same list as filtering the input. -/
theorem insertionSort_filter_eq (f : α → Option ℚ) (p : α → Bool)
    (hp : ∀ a b, p a = true → p b = true → leKey f a b) (l : List α) :
    (l.insertionSort (leKey f)).filter p = l.filter p := by
  have hpw : (l.filter p).Pairwise (leKey f) :=
    List.pairwise_of_forall_mem_list fun a ha b hb =>
      hp a b (List.of_mem_filter ha) (List.of_mem_filter hb)
  have hsub : (l.filter p).Sublist (l.insertionSort (leKey f)) :=
    List.sublist_insertionSort hpw (List.filter_sublist l)
  have hsub2 : (l.filter p).Sublist ((l.insertionSort (leKey f)).filter p) := by
    have := hsub.filter p
    rwa [List.filter_filter, List.filter_congr (fun x _ => Bool.and_self (p x))]
      at this
  have hlen : (l.filter p).length = ((l.insertionSort (leKey f)).filter p).length :=
    (((List.perm_insertionSort (leKey f) l).filter p).length_eq).symm
  exact (hsub2.eq_of_length hlen).symm

/-- The double reversal around the stable ascending pass makes the
descending sort stable: the rows holding any fixed score value appear in
the output in their original relative order. -/
theorem sortValuesDesc_filter_score (f : α → Option ℚ) (l : List α) (v : ℚ) :
    (sortValuesDesc f l).filter (fun x => decide (f x = some v)) =
      l.filter (fun x => decide (f x = some v)) := by
  unfold sortValuesDesc
  rw [List.filter_append]
  have habs : (l.filter fun x => !(f x).isSome).filter
      (fun x => decide (f x = some v)) = [] := by
    rw [List.filter_eq_nil_iff]
    intro a ha
    simp [mem_absent ha]
  rw [habs, List.append_nil, List.filter_reverse,
    insertionSort_filter_eq f _ ?_ _, List.filter_reverse,
    List.reverse_reverse]
  · rw [List.filter_filter]
    refine List.filter_congr fun x _ => ?_
    by_cases h : f x = some v <;> simp [h]
  · intro a b ha hb
    have ha' : f a = some v := of_decide_eq_true ha
    have hb' : f b = some v := of_decide_eq_true hb
    unfold leKey keyQ
    rw [ha', hb']

/-- In the descending sort order, every row with a missing key comes after
every row with a present key: the missing-key rows form a suffix. -/
theorem sortValuesDesc_missing_last (f : α → Option ℚ) (l : List α) :
    (sortValuesDesc f l).Pairwise (fun a b => f a = none → f b = none) := by
  unfold sortValuesDesc
  rw [List.pairwise_append]
  refine ⟨List.pairwise_of_forall_mem_list ?_,
    List.pairwise_of_forall_mem_list ?_, ?_⟩
  · intro a ha b _ h
    have := mem_sorted_present ha
    rw [h] at this
    exact absurd this (by simp)
  · intro a _ b hb _
    exact mem_absent hb
  · intro a _ b hb _
    exact mem_absent hb

/-- C7: the ordering used by `top_n` places rows with a missing score last
— the missing-score rows form a suffix of the sorted table, so no
missing-score row is among the top rows while a present-score row remains —
and the sort is stable on exact ties: the rows holding any fixed score
value appear in the output in their original relative order (pandas
`nargsort` reverses the present-key rows before the stable ascending
argsort and reverses the indexer after, so the descending order preserves
tie order). -/
theorem C7_order_spec (t : Table) :
    (sortValuesDesc Row.globalCompositeScore t).Pairwise
        (fun a b => a.globalCompositeScore = none → b.globalCompositeScore = none) ∧
      ∀ v : ℚ, (sortValuesDesc Row.globalCompositeScore t).filter
          (fun r => decide (r.globalCompositeScore = some v)) =
        t.filter (fun r => decide (r.globalCompositeScore = some v)) :=
  ⟨sortValuesDesc_missing_last _ t, fun v =>
    sortValuesDesc_filter_score Row.globalCompositeScore t v⟩

end Sorting

section Melt

/-- One row of the long-format output of `DataFrame.melt` (line 116 of the
source): the id cell, the originating column name (`var_name="Party"`) and
the cell value (`value_name="Z-Score"`). -/
structure LongRow where
  id : Option String
  party : String
  zval : Option ℚ
deriving DecidableEq, Repr

/-- `DataFrame.melt(id_vars, value_vars, var_name, value_name)`: pandas
emits one block per value column (column-major), each block carrying, for
every input row in order, the id cell, the column name and the cell value.
Missing cells pass through as missing; no row is dropped. -/
def meltBy (idf : Row → Option String) :
    List (String × (Row → Option ℚ)) → Table → List LongRow
  | [], _ => []
  | c :: cs, t => (t.map fun r => ⟨idf r, c.1, c.2 r⟩) ++ meltBy idf cs t

/-- The value columns melted by the script: the four party z-scores. -/
def meltCols : List (String × (Row → Option ℚ)) :=
  [("APC_z_score", Row.apcZ), ("PDP_z_score", Row.pdpZ),
   ("LP_z_score", Row.lpZ), ("NNPP_z_score", Row.nnppZ)]

/-- `z_df = top_5_outliers.melt(id_vars="PU-Name", value_vars=[...])`. -/
def z_df (t : Table) : List LongRow :=
  meltBy Row.puName meltCols (top_5_outliers t)

theorem meltBy_length (idf : Row → Option String)
    (cols : List (String × (Row → Option ℚ))) (t : Table) :
    (meltBy idf cols t).length = cols.length * t.length := by
  induction cols with
  | nil => simp [meltBy]
  | cons c cs ih =>
    simp only [meltBy, List.length_append, List.length_map, ih, List.length_cons]
    ring

theorem meltBy_party_mem (idf : Row → Option String)
    (cols : List (String × (Row → Option ℚ))) (t : Table) {x : LongRow}
    (hx : x ∈ meltBy idf cols t) : x.party ∈ cols.map Prod.fst := by
  induction cols with
  | nil => simp [meltBy] at hx
  | cons c cs ih =>
    rw [meltBy, List.mem_append] at hx
    rcases hx with h | h
    · obtain ⟨r, _, rfl⟩ := List.mem_map.mp h
      simp
    · simp [ih h]

theorem meltBy_filter_party (idf : Row → Option String)
    (cols : List (String × (Row → Option ℚ))) (t : Table)
    (hnd : (cols.map Prod.fst).Nodup) (c : String × (Row → Option ℚ))
    (hc : c ∈ cols) (qL : LongRow → Bool) :
    (meltBy idf cols t).filter (fun x => decide (x.party = c.1) && qL x) =
      (t.filter fun r => qL ⟨idf r, c.1, c.2 r⟩).map
        (fun r => ⟨idf r, c.1, c.2 r⟩) := by
  induction cols with
  | nil => simp at hc
  | cons c' cs ih =>
    rw [meltBy, List.filter_append]
    rw [List.map_cons, List.nodup_cons] at hnd
    rcases List.mem_cons.mp hc with rfl | hmem
    · have htail : (meltBy idf cs t).filter
          (fun x => decide (x.party = c.1) && qL x) = [] := by
        rw [List.filter_eq_nil_iff]
        intro a ha
        have hp := meltBy_party_mem idf cs t ha
        simp only [Bool.and_eq_true, decide_eq_true_eq]
        rintro ⟨h1, -⟩
        exact hnd.1 (h1 ▸ hp)
      rw [htail, List.append_nil, List.filter_map]
      congr 1
      refine List.filter_congr fun r _ => ?_
      simp [Function.comp]
    · have hhead : (t.map fun r => LongRow.mk (idf r) c'.1 (c'.2 r)).filter
          (fun x => decide (x.party = c.1) && qL x) = [] := by
        rw [List.filter_eq_nil_iff]
        intro a ha
        obtain ⟨r, _, rfl⟩ := List.mem_map.mp ha
        simp only [Bool.and_eq_true, decide_eq_true_eq]
        rintro ⟨h1, -⟩
        exact hnd.1 (h1 ▸ List.mem_map_of_mem Prod.fst hmem)
      rw [hhead, List.nil_append]
      exact ih hnd.2 hmem

/-- C4: melting `m` rows over `c` value columns yields exactly `c·m` output
rows; filtering the output back to one category recovers, in order, every
input row's cell for that column, missing cells passing through as missing;
and grouping by id and category recovers the original values of the rows
with that id (round-trip law).  The value-column names are assumed
distinct, as they are in the script. -/
theorem C4_melt_spec (idf : Row → Option String)
    (cols : List (String × (Row → Option ℚ))) (t : Table)
    (hnd : (cols.map Prod.fst).Nodup) :
    (meltBy idf cols t).length = cols.length * t.length ∧
      (∀ c ∈ cols,
        ((meltBy idf cols t).filter fun x => decide (x.party = c.1)).map
          LongRow.zval = t.map c.2) ∧
      ∀ c ∈ cols, ∀ i : Option String,
        ((meltBy idf cols t).filter fun x =>
            decide (x.party = c.1) && decide (x.id = i)).map LongRow.zval =
          (t.filter fun r => decide (idf r = i)).map c.2 := by
  refine ⟨meltBy_length idf cols t, ?_, ?_⟩
  · intro c hc
    have := meltBy_filter_party idf cols t hnd c hc (fun _ => true)
    rw [List.filter_congr (fun x _ => (Bool.and_true _).symm), this,
      List.map_map, List.filter_eq_self.mpr fun a _ => rfl]
    rfl
  · intro c hc i
    rw [meltBy_filter_party idf cols t hnd c hc (fun x => decide (x.id = i)),
      List.map_map]
    rfl

/-- Witness for C4: the script's four z-score columns on a one-row table. -/
theorem C4_melt_spec_witness :
    (meltBy Row.puName meltCols [rowA]).length = meltCols.length * 1 ∧
      ((meltBy Row.puName meltCols [rowA]).filter fun x =>
          decide (x.party = "APC_z_score")).map LongRow.zval =
        [rowA].map Row.apcZ :=
  ⟨(C4_melt_spec Row.puName meltCols [rowA] (by decide)).1,
   (C4_melt_spec Row.puName meltCols [rowA] (by decide)).2.1
     ("APC_z_score", Row.apcZ) (by simp [meltCols])⟩

end Melt

section MapLayers

/-- The marker layer (lines 79–91): the script iterates over **every** row
of the table and builds one `folium.Marker` per row with location
`[row['Latitude'], row['Longitude']]`; there is no filtering of rows with
missing coordinates. -/
def markerLocations (t : Table) : List (Option ℚ × Option ℚ) :=
  t.map fun r => (r.latitude, r.longitude)

/-- Line 94: `df[['Latitude','Longitude','Global_Composite_Score']]
.dropna().values.tolist()` — keeps exactly the rows in which all three
cells are present. -/
def heat_data (t : Table) : List (ℚ × ℚ × ℚ) :=
  t.filterMap fun r =>
    match r.latitude, r.longitude, r.globalCompositeScore with
    | some a, some b, some c => some (a, b, c)
    | _, _, _ => none

/-- Row with a missing latitude (longitude 5, composite score 6). -/
def noLatRow : Row :=
  ⟨some "d", some "D", some "L", none, some 5, some 1, some 1, some 1,
   some 1, some 1, some 1, some 1, some 1, some 1, some 6, some 1, some 1,
   some 1, some 1, some "blue"⟩

/-- C9 as stated is false for the marker layer: on a table containing a row
with missing latitude, the marker view still contains that row — the
location `(none, 5)` with a missing coordinate is passed to the map widget
instead of being dropped or flagged — while the heatmap layer does drop
it. -/
theorem C9_counterexample :
    (none, some (5 : ℚ)) ∈ markerLocations [mkRow "a" "A" "L" 1, noLatRow] ∧
      heat_data [mkRow "a" "A" "L" 1, noLatRow] = [(1, 1, 1)] := by
  decide

/-- C9 (amended): the heatmap layer drops incomplete rows — its data are
exactly the (latitude, longitude, score) triples of the rows in which all
three cells are present — but the marker layer performs no filtering: it
emits one marker per input row, passing missing coordinates through. -/
theorem C9_geometry_spec (t : Table) :
    (markerLocations t).length = t.length ∧
      (∀ x ∈ heat_data t, ∃ r ∈ t, r.latitude = some x.1 ∧
        r.longitude = some x.2.1 ∧ r.globalCompositeScore = some x.2.2) ∧
      ∀ r ∈ t, ∀ a b c : ℚ, r.latitude = some a → r.longitude = some b →
        r.globalCompositeScore = some c → (a, b, c) ∈ heat_data t := by
  refine ⟨List.length_map t _, ?_, ?_⟩
  · intro x hx
    obtain ⟨r, hr, hfr⟩ := List.mem_filterMap.mp hx
    refine ⟨r, hr, ?_⟩
    rcases hla : r.latitude with - | a <;> rw [hla] at hfr <;>
      rcases hlo : r.longitude with - | b <;> rw [hlo] at hfr <;>
      rcases hsc : r.globalCompositeScore with - | c <;> rw [hsc] at hfr <;>
      simp only [reduceCtorEq, Option.some_inj] at hfr <;>
      subst hfr <;> exact ⟨rfl, rfl, rfl⟩
  · intro r hr a b c hla hlo hsc
    refine List.mem_filterMap.mpr ⟨r, hr, ?_⟩
    rw [hla, hlo, hsc]

/-- Witness for C9 on a concrete complete one-row table. -/
theorem C9_geometry_spec_witness :
    ((1 : ℚ), (1 : ℚ), (1 : ℚ)) ∈ heat_data [mkRow "a" "A" "L" 1] :=
  (C9_geometry_spec [mkRow "a" "A" "L" 1]).2.2 (mkRow "a" "A" "L" 1)
    (List.mem_singleton_self _) 1 1 1 rfl rfl rfl

end MapLayers

section Historical

/-- One row of the frame literal on lines 152–158, before `fillna`:
`None` entries are missing. -/
structure HistRow where
  year : ℤ
  apc : Option ℚ
  pdp : Option ℚ
  lp : Option ℚ
  nnpp : Option ℚ
deriving DecidableEq, Repr

/-- One row of the historical frame after `fillna(0)`. -/
structure HistRowFilled where
  year : ℤ
  apc : ℚ
  pdp : ℚ
  lp : ℚ
  nnpp : ℚ
deriving DecidableEq, Repr

/-- The frame literal of lines 152–158: three hardcoded legacy years (with
deliberately absent entries) plus the 2023 figures computed as the party
column sums of the loaded table. -/
def historicalRaw (t : Table) : List HistRow :=
  [⟨2011, none, some 484758, none, none⟩,
   ⟨2015, some 528620, some 303376, none, none⟩,
   ⟨2019, some 365229, some 366690, some 360, some 430⟩,
   ⟨2023, some (colSum t Row.apc), some (colSum t Row.pdp),
    some (colSum t Row.lp), some (colSum t Row.nnpp)⟩]

/-- `fillna(0, inplace=True)` (line 161) applied to one row: every missing
entry becomes the numeric zero. -/
def fillna0 (r : HistRow) : HistRowFilled :=
  ⟨r.year, r.apc.getD 0, r.pdp.getD 0, r.lp.getD 0, r.nnpp.getD 0⟩

/-- The historical series the chart consumes. -/
def historical_election_data (t : Table) : List HistRowFilled :=
  (historicalRaw t).map fillna0

/-- C6: for every loaded table, the 2011 row of the historical series has
APC equal to 0 (absent legacy entry filled with zero) and PDP equal to the
literal 484758, and the 2023 row has each party equal to the sum of the
non-missing entries of the corresponding party column of the loaded
table. -/
theorem C6_historical_series (t : Table) :
    (historical_election_data t).find? (fun r => decide (r.year = 2011)) =
        some ⟨2011, 0, 484758, 0, 0⟩ ∧
      (historical_election_data t).find? (fun r => decide (r.year = 2023)) =
        some ⟨2023, colSum t Row.apc, colSum t Row.pdp, colSum t Row.lp,
          colSum t Row.nnpp⟩ := by
  constructor <;>
    simp [historical_election_data, historicalRaw, fillna0, List.find?]

end Historical

section GroupMean

/-- Round half to even to an integer, the rounding numpy and pandas use. -/
def roundHalfEven (q : ℚ) : ℤ :=
  if q - ⌊q⌋ < 1 / 2 then ⌊q⌋
  else if 1 / 2 < q - ⌊q⌋ then ⌊q⌋ + 1
  else if Even ⌊q⌋ then ⌊q⌋ else ⌊q⌋ + 1

/-- `Series.round(2)`: round to 2 decimal places, ties to even. -/
def round2 (q : ℚ) : ℚ := (roundHalfEven (q * 100) : ℚ) / 100

/-- `df.groupby("LGA")`: pandas drops rows whose group key is missing and
sorts the distinct keys ascending. -/
def lgaKeys (t : Table) : List String :=
  ((t.filterMap Row.lga).dedup).insertionSort (· ≤ ·)

/-- The non-missing composite scores of the rows of group `g`. -/
def groupVals (t : Table) (g : String) : List ℚ :=
  (t.filter fun r => decide (r.lga = some g)).filterMap Row.globalCompositeScore

/-- `groupby("LGA")["Global_Composite_Score"].mean().round(2)` for one
group: the arithmetic mean of the non-missing values (pandas `mean` skips
missing values), rounded to 2 decimals; a group whose every value is
missing gets mean NaN. -/
def groupMeanVal (t : Table) (g : String) : PyFloat :=
  let vs := groupVals t g
  if vs.length = 0 then .nan else .finite (round2 (vs.sum / vs.length))

/-- The sort key of the final `sort_values(ascending=False)` over the
per-group means: a finite mean sorts by its value, NaN sorts as missing. -/
def meanKey (p : String × PyFloat) : Option ℚ :=
  match p.2 with
  | .finite q => some q
  | _ => none

/-- Line 137 of the source: `df.groupby("LGA")["Global_Composite_Score"]
.mean().round(2).sort_values(ascending=False).reset_index()`. -/
def lga_comparison (t : Table) : List (String × PyFloat) :=
  sortValuesDesc meanKey ((lgaKeys t).map fun g => (g, groupMeanVal t g))

/-- Row of group X with a missing composite score. -/
def rowXm : Row :=
  ⟨some "x3", some "X3", some "X", some 1, some 1, some 1, some 1, some 1,
   some 1, some 1, some 1, some 1, some 1, some 1, none, some 1, some 1,
   some 1, some 1, some "blue"⟩

/-- The spec's example table: group X holds values 10, 20 and a missing
value. -/
def exTable5 : Table := [mkRow "x1" "X1" "X" 10, mkRow "x2" "X2" "X" 20, rowXm]

/-- C5: `group_mean` returns exactly one row per distinct (non-missing)
group key; every returned row carries the rounded arithmetic mean of the
group's non-missing values; the rows are sorted by mean descending (an
all-missing group's NaN mean ranking below every finite mean); and on a
group with values 10, 20 and one missing value the mean is 15 — the
missing value is skipped, not treated as 0. -/
theorem C5_group_mean_spec :
    (∀ t : Table,
      ((lga_comparison t).map Prod.fst).Perm (t.filterMap Row.lga).dedup ∧
        (∀ p ∈ lga_comparison t, p.2 = groupMeanVal t p.1) ∧
        (lga_comparison t).Pairwise (scoreGe meanKey)) ∧
      groupMeanVal exTable5 "X" = .finite 15 := by
  constructor
  · intro t
    refine ⟨?_, ?_, sortValuesDesc_pairwise meanKey _⟩
    · have h1 := (sortValuesDesc_perm meanKey
        ((lgaKeys t).map fun g => (g, groupMeanVal t g))).map Prod.fst
      rw [List.map_map] at h1
      have h2 : ((lgaKeys t).map (Prod.fst ∘ fun g => (g, groupMeanVal t g)))
          = lgaKeys t := List.map_id'' (fun _ => rfl) _
      rw [h2] at h1
      exact h1.trans (List.perm_insertionSort _ _)
    · intro p hp
      have hmem := (sortValuesDesc_perm meanKey _).mem_iff.mp hp
      obtain ⟨g, -, rfl⟩ := List.mem_map.mp hmem
      rfl
  · have hvals : groupVals exTable5 "X" = [10, 20] := by
      simp [groupVals, exTable5, mkRow, rowXm, List.filter, List.filterMap]
    rw [groupMeanVal, hvals]
    norm_num [round2, roundHalfEven]

/-- Witness for C5: the single output row of the example table carries the
group mean of group X. -/
theorem C5_group_mean_spec_witness :
    ∃ p ∈ lga_comparison exTable5, p.2 = groupMeanVal exTable5 p.1 := by
  have hne : lga_comparison exTable5 ≠ [] := by
    intro h
    have := congrArg List.length (List.Perm.eq_nil
      ((C5_group_mean_spec.1 exTable5).1.symm.trans (h ▸ List.Perm.refl [])))
    simp [exTable5, mkRow, rowXm] at this
  obtain ⟨p, hp⟩ := List.exists_mem_of_ne_nil _ hne
  exact ⟨p, hp, (C5_group_mean_spec.1 exTable5).2.1 p hp⟩

end GroupMean

section Schema

/-- The error a pandas column access `df[c]` raises when column `c` is
absent.  The script defines no other error kind: in particular no
`SchemaError` exists anywhere in the source. -/
inductive PyError where
  | keyError : String → PyError
deriving DecidableEq, Repr

/-- The script at column granularity: for each line that reads `df`, the
columns it accesses (in access order) and the derived entity that line
produces, in program order.  The marker loop body (lines 79–91) reads its
columns from each row, so it only performs those accesses when the table
has at least one row. -/
def scriptSteps (hasRows : Bool) : List (List String × String) :=
  [(["PU-Code"], "total_polling_units"),
   (["Total_Votes"], "total_votes"),
   (["Registered_Voters"], "total_registered"),
   (["Accredited_Voters"], "total_accredited"),
   ([], "voter_turnout"),
   (["Latitude", "Longitude"], "map_center"),
   ((if hasRows then ["PU-Name", "HDBSCAN_Cluster", "Total_Votes",
      "Accredited_Ratio", "Global_Composite_Score", "Latitude", "Longitude",
      "color"] else []), "marker_cluster"),
   (["Latitude", "Longitude", "Global_Composite_Score"], "heat_data"),
   (["Global_Composite_Score"], "top_5_outliers"),
   (["PU-Name", "Total_Votes", "Accredited_Voters", "Accredited_Ratio",
     "APC_z_score", "PDP_z_score", "LP_z_score", "NNPP_z_score",
     "Global_Composite_Score"], "outlier_table"),
   (["PU-Name", "APC_z_score", "PDP_z_score", "LP_z_score", "NNPP_z_score"],
     "z_df"),
   (["LGA", "Global_Composite_Score"], "lga_comparison"),
   (["APC", "PDP", "LP", "NNPP"], "historical_election_data")]

/-- The first needed column absent from the loaded table, if any. -/
def firstMissing (cols needed : List String) : Option String :=
  needed.find? fun c => !(cols.contains c)

/-- Runs the script steps over a table with the given column set: each step
first accesses its columns — the first absent one raises `KeyError` and
aborts the run — and then produces its entity.  Returns the entities
produced before the abort, and the error if any. -/
def runSteps (cols : List String) :
    List (List String × String) → List String × Option PyError
  | [] => ([], none)
  | s :: rest =>
    match firstMissing cols s.1 with
    | some c => ([], some (.keyError c))
    | none =>
      let r := runSteps cols rest
      (s.2 :: r.1, r.2)

/-- One full run of the script over a table with column set `cols`. -/
def runPipeline (cols : List String) (hasRows : Bool) :
    List String × Option PyError :=
  runSteps cols (scriptSteps hasRows)

/-- Every column the script reads. -/
def requiredCols (hasRows : Bool) : List String :=
  (scriptSteps hasRows).flatMap Prod.fst

/-- The full column set of the dataset. -/
def allCols : List String :=
  ["PU-Code", "PU-Name", "LGA", "Latitude", "Longitude", "APC", "PDP", "LP",
   "NNPP", "Total_Votes", "Registered_Voters", "Accredited_Voters",
   "HDBSCAN_Cluster", "Accredited_Ratio", "Global_Composite_Score",
   "APC_z_score", "PDP_z_score", "LP_z_score", "NNPP_z_score", "color"]

theorem runSteps_error (cols : List String) :
    ∀ steps : List (List String × String),
      (∃ c, (∃ s ∈ steps, c ∈ s.1) ∧ c ∉ cols) →
      ∃ c', (runSteps cols steps).2 = some (.keyError c') ∧ c' ∉ cols := by
  intro steps
  induction steps with
  | nil => rintro ⟨c, ⟨s, hs, -⟩, -⟩; simp at hs
  | cons s rest ih =>
    rintro ⟨c, ⟨s', hs', hc⟩, hnotin⟩
    rw [runSteps]
    rcases hfm : firstMissing cols s.1 with - | c₀
    · have hall : ∀ x ∈ s.1, x ∈ cols := by
        intro x hx
        have := List.find?_eq_none.mp hfm x hx
        simpa using this
      rcases List.mem_cons.mp hs' with rfl | hmem
      · exact absurd (hall c hc) hnotin
      · obtain ⟨c', hc', hn⟩ := ih ⟨c, ⟨s', hmem, hc⟩, hnotin⟩
        exact ⟨c', hc', hn⟩
    · refine ⟨c₀, rfl, ?_⟩
      have := List.find?_some hfm
      simpa using this

/-- C3 (amended): a loaded table missing any column the script reads makes
the run abort with a plain `KeyError` naming a missing column at the first
access to it — not with a named `SchemaError`, which does not exist in the
code — and the derived entities of the lines before that access are still
produced (see the counterexample theorem for C3). -/
theorem C3_keyerror_spec (cols : List String) (hasRows : Bool)
    (h : ∃ c ∈ requiredCols hasRows, c ∉ cols) :
    ∃ c', (runPipeline cols hasRows).2 = some (.keyError c') ∧ c' ∉ cols := by
  obtain ⟨c, hc, hn⟩ := h
  obtain ⟨s, hs, hcs⟩ := List.mem_flatMap.mp hc
  exact runSteps_error cols (scriptSteps hasRows) ⟨c, ⟨s, hs, hcs⟩, hn⟩

/-- Witness for C3 on the dataset's columns with `Registered_Voters`
removed. -/
theorem C3_keyerror_spec_witness :
    ∃ c', (runPipeline (allCols.erase "Registered_Voters") true).2 =
        some (.keyError c') ∧ c' ∉ allCols.erase "Registered_Voters" :=
  C3_keyerror_spec (allCols.erase "Registered_Voters") true (by decide)

/-- C3 as stated is false: with `Registered_Voters` absent, the run does
produce derived entities (the polling-unit count and the vote total of
lines 44–45) before failing, and the failure is a plain `KeyError`, not a
named `SchemaError`. -/
theorem C3_counterexample :
    (runPipeline (allCols.erase "Registered_Voters") true).1 =
        ["total_polling_units", "total_votes"] ∧
      (runPipeline (allCols.erase "Registered_Voters") true).2 =
        some (.keyError "Registered_Voters") := by
  decide

end Schema

section Frame

/-- The derived entities of one full rendering pass. -/
structure DashOutputs where
  kpiUnits : Nat
  kpiVotes : ℤ
  kpiRegistered : ℚ
  kpiAccredited : ℚ
  kpiTurnout : PyFloat
  markers : List (Option ℚ × Option ℚ)
  heat : List (ℚ × ℚ × ℚ)
  top5 : Table
  zdf : List LongRow
  lgaCmp : List (String × PyFloat)
  hist : List HistRowFilled

/-- KPI stage (lines 44–48); threads the loaded table through. -/
def kpiStage (t : Table) : Table × (Nat × ℤ × ℚ × ℚ × PyFloat) :=
  (t, (total_polling_units t, total_votes t, colSum t Row.registeredVoters,
    colSum t Row.accreditedVoters, voter_turnout t))

/-- Map stage (lines 74–95). -/
def mapStage (t : Table) :
    Table × (List (Option ℚ × Option ℚ) × List (ℚ × ℚ × ℚ)) :=
  (t, (markerLocations t, heat_data t))

/-- Ranking and melt stage (lines 106–121): `sort_values`, `head` and
`melt` all return new frames. -/
def rankStage (t : Table) : Table × (Table × List LongRow) :=
  (t, (top_5_outliers t, z_df t))

/-- Group-mean stage (line 137). -/
def groupStage (t : Table) : Table × List (String × PyFloat) :=
  (t, lga_comparison t)

/-- Historical stage (lines 152–161).  The one in-place mutation of the
script, `fillna(0, inplace=True)`, acts on the freshly built
`historical_election_data` frame — modelled by mapping `fillna0` over the
new frame — and not on the loaded table. -/
def histStage (t : Table) : Table × List HistRowFilled :=
  let raw := historicalRaw t
  (t, raw.map fillna0)

/-- The whole script as a state-passing computation over the loaded table:
each stage receives the table left by the previous stage and returns the
table it leaves behind together with its derived entity. -/
def runDashboard (t : Table) : Table × DashOutputs :=
  let (t₁, k) := kpiStage t
  let (t₂, m) := mapStage t₁
  let (t₃, rk) := rankStage t₂
  let (t₄, g) := groupStage t₃
  let (t₅, h) := histStage t₄
  (t₅, ⟨k.1, k.2.1, k.2.2.1, k.2.2.2.1, k.2.2.2.2, m.1, m.2, rk.1, rk.2, g, h⟩)

/-- C10: after all derived computations — KPI sums, ranking, melt, group
mean and the historical series with its in-place `fillna` — the loaded
table is unchanged: every stage passes it through untouched. -/
theorem C10_frame_condition (t : Table) : (runDashboard t).1 = t := rfl

end Frame

end ElectionDashboard
